import Mathlib

/-!
Shallow embedding of the Viterbi decoder from `viterbi.go` (package `viterbi`).

The Go code stores probabilities as `float64`.  Every value the claims
under study exercise is either a finite value or negative infinity, so `float64`
is embedded as the type `F` below: finite values are exact rationals and
negative infinity is a distinguished constructor.  NaN and positive
infinity are outside the scope of the claims.

Go maps (`startProbabilities`, `emissionProbabilities`,
`transitionProbabilities`) are only ever read by the decoder, so they are
embedded as lookup functions returning `Option F` (absent key = `none`).
The trellis layers `V[t]` (`map[State]ViterbiVal` in Go) are embedded as
association lists built in the order the states are processed, which is the
state-registration order of the model, with map-assignment (replace-or-append)
semantics.  The one place where Go iterates a trellis map — the final-layer
max/terminus scan — has unspecified (randomized) iteration order in Go;
it is modelled by an explicit `reorder` parameter applied to the final
layer, with `id` giving the registration-order instance.
-/

set_option autoImplicit false

universe u v

/-- The `float64` values reachable in the decoder: negative infinity or a
finite value (embedded as an exact rational). -/
inductive F where
  | negInf : F
  | fin : ℚ → F
deriving DecidableEq

/-- Go `<` on the embedded values (no NaN in scope): `-Inf` is below every
finite value and not below itself. -/
def F.blt : F → F → Bool
  | _, .negInf => false
  | .negInf, .fin _ => true
  | .fin a, .fin b => decide (a < b)

/-- Go `math.IsInf(x, -1)`. -/
def F.isNegInf : F → Bool
  | .negInf => true
  | .fin _ => false

/-- Go `+` on the embedded values.  In the decoder it is only applied after
the `-Inf` operands have been skipped, so only the finite case is reachable;
the `-Inf` cases follow IEEE (`-Inf + finite = -Inf`). -/
def F.add : F → F → F
  | .negInf, _ => .negInf
  | _, .negInf => .negInf
  | .fin a, .fin b => .fin (a + b)

/-- Go `*` on the embedded values.  The linear decoder validates every
operand into `[0,1]` before multiplying, so only the finite case is
reachable. -/
def F.mul : F → F → F
  | .negInf, _ => .negInf
  | _, .negInf => .negInf
  | .fin a, .fin b => .fin (a * b)

/-- Go map lookup `l[k]` on an association list (first binding wins). -/
def lookupA {σ : Type u} {α : Type v} [DecidableEq σ] : List (σ × α) → σ → Option α
  | [], _ => none
  | (k, v) :: rest, s => if k = s then some v else lookupA rest s

/-- Go map assignment `l[k] = v` on an association list: replace the
existing binding, else append. -/
def insertA {σ : Type u} {α : Type v} [DecidableEq σ] : List (σ × α) → σ → α → List (σ × α)
  | [], k, v => [(k, v)]
  | (k0, v0) :: rest, k, v =>
    if k0 = k then (k, v) :: rest else (k0, v0) :: insertA rest k v

/-- The model (`type Viterbi struct`): `σ` and `ω` are the caller-supplied
state and observation types (`State` / `Observation` interface values). -/
structure Viterbi (σ : Type u) (ω : Type v) where
  states : List σ
  observations : List ω
  startProbabilities : σ → Option F
  emissionProbabilities : σ → ω → Option F
  transitionProbabilities : σ → σ → Option F

/-- The errors of `viterbi.go`.  `invalidProbability` is the identity of the
Go value `ErrInvalidProbability` (the wrapped context message is not
modelled); `pathBroken` carries the failing observation index;
`internalBacktrack` carries the index `t+1` of the Go loop. -/
inductive VErr where
  | noObservations : VErr
  | noStates : VErr
  | noValidInitStates : VErr
  | noValidPath : VErr
  | invalidProbability : VErr
  | pathBroken : Nat → VErr
  | internalBacktrack : Nat → VErr
deriving DecidableEq

/-- One trellis cell (`type ViterbiVal struct`): best cumulative probability
and the best predecessor.  The Go field `prev State` is a nil-able interface value;
`none` models the nil interface (layer 0 leaves it nil). -/
structure ViterbiVal (σ : Type u) where
  prob : F
  prev : Option σ
deriving DecidableEq

/-- The decode result (`type ViterbiPath struct`). -/
structure ViterbiPath (σ : Type u) where
  Probability : F
  Path : List σ
deriving DecidableEq

/-- One trellis layer: Go `map[State]ViterbiVal`, as an association list in
insertion order. -/
abbrev Layer (σ : Type u) := List (σ × ViterbiVal σ)

/-- The linear-mode range check `p < 0 || p > 1` of `EvalPath`. -/
def outOfRange01 (p : F) : Bool := F.blt p (F.fin 0) || F.blt (F.fin 1) p

/-- The log-mode range check `p > 0` of `EvalPathLogProbabilities`. -/
def outOfRangeLog (p : F) : Bool := F.blt (F.fin 0) p

variable {σ : Type u} {ω : Type v}

/-- One iteration of the initial loop of `EvalPath` over `v.states` (lines
109-130 of `viterbi.go`): skip states without a start probability, validate
it, skip states without an emission for observation 0, validate it, then
record `start * emission` in layer 0 and count the state as a valid initial
state.  The `Except` accumulator models the early Go `return` on error. -/
def initStep [DecidableEq σ] (m : Viterbi σ ω) (obs0 : ω)
    (acc : Except VErr (Layer σ × Nat)) (st : σ) : Except VErr (Layer σ × Nat) :=
  match acc with
  | .error e => .error e
  | .ok (L, count) =>
    match m.startProbabilities st with
    | none => .ok (L, count)
    | some startProb =>
      if outOfRange01 startProb then .error .invalidProbability
      else
        match m.emissionProbabilities st obs0 with
        | none => .ok (L, count)
        | some emissionProb =>
          if outOfRange01 emissionProb then .error .invalidProbability
          else .ok (insertA L st ⟨F.mul startProb emissionProb, none⟩, count + 1)

/-- Layer 0 of `EvalPath` together with the Go counter `validInitStates`. -/
def initLayer [DecidableEq σ] (m : Viterbi σ ω) (obs0 : ω) : Except VErr (Layer σ × Nat) :=
  m.states.foldl (initStep m obs0) (.ok ([], 0))

/-- One iteration of the inner predecessor scan of `EvalPath` (lines 154-176):
skip missing transitions, validate the transition, skip predecessors absent
from the previous layer, and keep the strictly best
`transition * previousProb` candidate (first maximum wins).  The
accumulator mirrors the Go triple `(foundValidTransition,
maxTransitionProbability, tmpState)`, started at `(false, 0.0, nil)`. -/
def transStep [DecidableEq σ] (m : Viterbi σ ω) (prevLayer : Layer σ) (s : σ)
    (acc : Except VErr (Bool × F × Option σ)) (r : σ) : Except VErr (Bool × F × Option σ) :=
  match acc with
  | .error e => .error e
  | .ok (found, maxTP, tmp) =>
    match m.transitionProbabilities r s with
    | none => .ok (found, maxTP, tmp)
    | some vT =>
      if outOfRange01 vT then .error .invalidProbability
      else
        match lookupA prevLayer r with
        | none => .ok (found, maxTP, tmp)
        | some stateProb =>
          let tp := F.mul vT stateProb.prob
          if !found || F.blt maxTP tp then .ok (true, tp, some r)
          else .ok (found, maxTP, tmp)

/-- The inner predecessor scan of `EvalPath` for state `s` at one time
step. -/
def bestPrev [DecidableEq σ] (m : Viterbi σ ω) (prevLayer : Layer σ) (s : σ) :
    Except VErr (Bool × F × Option σ) :=
  m.states.foldl (transStep m prevLayer s) (.ok (false, F.fin 0, none))

/-- One iteration of the per-state loop of `EvalPath` at a time step `t ≥ 1`
(lines 139-183): skip states without an emission for the observation,
validate it, run the predecessor scan, and on success record
`maxTransition * emission` with the winning predecessor. -/
def stepState [DecidableEq σ] (m : Viterbi σ ω) (prevLayer : Layer σ) (obs : ω)
    (acc : Except VErr (Layer σ)) (s : σ) : Except VErr (Layer σ) :=
  match acc with
  | .error e => .error e
  | .ok L =>
    match m.emissionProbabilities s obs with
    | none => .ok L
    | some emissionProb =>
      if outOfRange01 emissionProb then .error .invalidProbability
      else
        match bestPrev m prevLayer s with
        | .error e => .error e
        | .ok (found, maxTP, tmp) =>
          if found then .ok (insertA L s ⟨F.mul maxTP emissionProb, tmp⟩) else .ok L

/-- The trellis layer of `EvalPath` for one observation at `t ≥ 1`. -/
def stepLayer [DecidableEq σ] (m : Viterbi σ ω) (prevLayer : Layer σ) (obs : ω) :
    Except VErr (Layer σ) :=
  m.states.foldl (stepState m prevLayer obs) (.ok [])

/-- The time loop of `EvalPath` (lines 137-189): build the layer for each
remaining observation, failing with `pathBroken t` as soon as a built layer
is empty (the decode never continues past an empty layer). -/
def buildLayers [DecidableEq σ] (m : Viterbi σ ω) (prevLayer : Layer σ) (t : Nat) :
    List ω → Except VErr (List (Layer σ))
  | [] => .ok []
  | obs :: rest =>
    match stepLayer m prevLayer obs with
    | .error e => .error e
    | .ok L =>
      if L.isEmpty then .error (.pathBroken t)
      else
        match buildLayers m L (t + 1) rest with
        | .error e => .error e
        | .ok Ls => .ok (L :: Ls)

/-- The final-layer maximum scan (lines 197-201 / 355-359): fold the Go
update `if value.prob > maxPr` over the layer, starting from `0.0` in
linear mode and `-Inf` in log mode. -/
def maxFinal (L : Layer σ) (initMax : F) : F :=
  L.foldl (fun mp e => if F.blt mp e.2.prob then e.2.prob else mp) initMax

/-- The terminus scan (lines 206-213 / 364-371): the first layer entry
whose probability equals the maximum (Go breaks at the first hit). -/
def pickTerminus (L : Layer σ) (maxPr : F) : Option σ :=
  (L.find? fun e => decide (e.2.prob = maxPr)).map Prod.fst

/-- The backtracking loop (lines 220-228 / 378-386), walking the built
layers `V[N-1], ..., V[1]` last-first (`revTail`).  A missing map entry is
the explicit Go internal error at time `t+1 = rest.length + 1`; a recorded
nil predecessor would reach the same cell, so it is surfaced in the same
internal-error branch (both are proved unreachable). -/
def backtrack [DecidableEq σ] : List (Layer σ) → σ → List σ → Except VErr (List σ)
  | [], _, opt => .ok opt
  | layer :: rest, previous, opt =>
    match lookupA layer previous with
    | none => .error (.internalBacktrack (rest.length + 1))
    | some val =>
      match val.prev with
      | none => .error (.internalBacktrack (rest.length + 1))
      | some p => backtrack rest p (p :: opt)

/-- The shared tail of both decoders (lines 192-230 / 350-388): check the
last layer `built.reverse.headD L0` for emptiness, scan it (through the
map-iteration order `reorder`) for the maximum and the terminus, then
backtrack through the built layers. -/
def finishDecode [DecidableEq σ] (L0 : Layer σ) (built : List (Layer σ))
    (reorder : Layer σ → Layer σ) (initMax : F) : Except VErr (ViterbiPath σ) :=
  let revB := built.reverse
  let lastL := revB.headD L0
  if lastL.isEmpty then .error .noValidPath
  else
    let maxPr := maxFinal (reorder lastL) initMax
    match pickTerminus (reorder lastL) maxPr with
    | none => .error .noValidPath
    | some terminus =>
      match backtrack revB terminus [terminus] with
      | .error e => .error e
      | .ok opt => .ok ⟨maxPr, opt⟩

/-- `EvalPath` (lines 88-231), with the final-layer map-iteration order
exposed as `reorder`. -/
def EvalPathCore [DecidableEq σ] (m : Viterbi σ ω) (reorder : Layer σ → Layer σ) :
    Except VErr (ViterbiPath σ) :=
  match m.observations with
  | [] => .error .noObservations
  | obs0 :: obsRest =>
    if m.states.isEmpty then .error .noStates
    else
      match initLayer m obs0 with
      | .error e => .error e
      | .ok (L0, validInitStates) =>
        if validInitStates = 0 then .error .noValidInitStates
        else
          match buildLayers m L0 1 obsRest with
          | .error e => .error e
          | .ok built => finishDecode L0 built reorder (F.fin 0)

/-- `EvalPath` at the registration-order instance of the final-layer
iteration. -/
def Viterbi.EvalPath [DecidableEq σ] (m : Viterbi σ ω) : Except VErr (ViterbiPath σ) :=
  EvalPathCore m id

/-- One iteration of the initial loop of `EvalPathLogProbabilities` (lines
255-280): like the linear one, with the `p > 0` range check, `-Inf` start
or emission values skipped (valid but unreachable, not an error), and
addition in place of multiplication. -/
def initStepLog [DecidableEq σ] (m : Viterbi σ ω) (obs0 : ω)
    (acc : Except VErr (Layer σ × Nat)) (st : σ) : Except VErr (Layer σ × Nat) :=
  match acc with
  | .error e => .error e
  | .ok (L, count) =>
    match m.startProbabilities st with
    | none => .ok (L, count)
    | some startProb =>
      if outOfRangeLog startProb then .error .invalidProbability
      else
        match m.emissionProbabilities st obs0 with
        | none => .ok (L, count)
        | some emissionProb =>
          if outOfRangeLog emissionProb then .error .invalidProbability
          else
            if startProb.isNegInf || emissionProb.isNegInf then .ok (L, count)
            else .ok (insertA L st ⟨F.add startProb emissionProb, none⟩, count + 1)

/-- Layer 0 of `EvalPathLogProbabilities` with the `validInitStates`
counter. -/
def initLayerLog [DecidableEq σ] (m : Viterbi σ ω) (obs0 : ω) :
    Except VErr (Layer σ × Nat) :=
  m.states.foldl (initStepLog m obs0) (.ok ([], 0))

/-- One iteration of the log-mode predecessor scan (lines 308-334): skip
missing transitions, validate `p > 0`, skip predecessors absent from the
previous layer, skip `-Inf` transition or predecessor scores, and keep the
strictly best `transition + previousProb` candidate.  The accumulator
starts at `(false, -Inf, nil)`. -/
def transStepLog [DecidableEq σ] (m : Viterbi σ ω) (prevLayer : Layer σ) (s : σ)
    (acc : Except VErr (Bool × F × Option σ)) (r : σ) : Except VErr (Bool × F × Option σ) :=
  match acc with
  | .error e => .error e
  | .ok (found, maxTP, tmp) =>
    match m.transitionProbabilities r s with
    | none => .ok (found, maxTP, tmp)
    | some vT =>
      if outOfRangeLog vT then .error .invalidProbability
      else
        match lookupA prevLayer r with
        | none => .ok (found, maxTP, tmp)
        | some stateProb =>
          if vT.isNegInf || stateProb.prob.isNegInf then .ok (found, maxTP, tmp)
          else
            let tp := F.add vT stateProb.prob
            if !found || F.blt maxTP tp then .ok (true, tp, some r)
            else .ok (found, maxTP, tmp)

/-- The log-mode predecessor scan for state `s` at one time step. -/
def bestPrevLog [DecidableEq σ] (m : Viterbi σ ω) (prevLayer : Layer σ) (s : σ) :
    Except VErr (Bool × F × Option σ) :=
  m.states.foldl (transStepLog m prevLayer s) (.ok (false, F.negInf, none))

/-- One iteration of the log-mode per-state loop at `t ≥ 1` (lines
289-341): skip states without an emission, validate `p > 0`, skip `-Inf`
emissions, run the predecessor scan, and on success record
`maxTransition + emission`. -/
def stepStateLog [DecidableEq σ] (m : Viterbi σ ω) (prevLayer : Layer σ) (obs : ω)
    (acc : Except VErr (Layer σ)) (s : σ) : Except VErr (Layer σ) :=
  match acc with
  | .error e => .error e
  | .ok L =>
    match m.emissionProbabilities s obs with
    | none => .ok L
    | some emissionProb =>
      if outOfRangeLog emissionProb then .error .invalidProbability
      else
        if emissionProb.isNegInf then .ok L
        else
          match bestPrevLog m prevLayer s with
          | .error e => .error e
          | .ok (found, maxTP, tmp) =>
            if found then .ok (insertA L s ⟨F.add maxTP emissionProb, tmp⟩) else .ok L

/-- The log-mode trellis layer for one observation at `t ≥ 1`. -/
def stepLayerLog [DecidableEq σ] (m : Viterbi σ ω) (prevLayer : Layer σ) (obs : ω) :
    Except VErr (Layer σ) :=
  m.states.foldl (stepStateLog m prevLayer obs) (.ok [])

/-- The log-mode time loop (lines 287-347), failing with `pathBroken t` as
soon as a built layer is empty. -/
def buildLayersLog [DecidableEq σ] (m : Viterbi σ ω) (prevLayer : Layer σ) (t : Nat) :
    List ω → Except VErr (List (Layer σ))
  | [] => .ok []
  | obs :: rest =>
    match stepLayerLog m prevLayer obs with
    | .error e => .error e
    | .ok L =>
      if L.isEmpty then .error (.pathBroken t)
      else
        match buildLayersLog m L (t + 1) rest with
        | .error e => .error e
        | .ok Ls => .ok (L :: Ls)

/-- `EvalPathLogProbabilities` (lines 234-389), with the final-layer
map-iteration order exposed as `reorder`; the final maximum scan starts at
`-Inf`. -/
def EvalPathLogCore [DecidableEq σ] (m : Viterbi σ ω) (reorder : Layer σ → Layer σ) :
    Except VErr (ViterbiPath σ) :=
  match m.observations with
  | [] => .error .noObservations
  | obs0 :: obsRest =>
    if m.states.isEmpty then .error .noStates
    else
      match initLayerLog m obs0 with
      | .error e => .error e
      | .ok (L0, validInitStates) =>
        if validInitStates = 0 then .error .noValidInitStates
        else
          match buildLayersLog m L0 1 obsRest with
          | .error e => .error e
          | .ok built => finishDecode L0 built reorder F.negInf

/-- `EvalPathLogProbabilities` at the registration-order instance of the
final-layer iteration. -/
def Viterbi.EvalPathLogProbabilities [DecidableEq σ] (m : Viterbi σ ω) :
    Except VErr (ViterbiPath σ) :=
  EvalPathLogCore m id

/-- The 2-state weather HMM fixture of `viterbi_test.go` (states by id:
Healthy = 1, Fever = 2; observations by id: normal = 1, cold = 2,
dizzy = 3). -/
def weather : Viterbi Nat Nat where
  states := [1, 2]
  observations := [1, 2, 3]
  startProbabilities := fun s =>
    if s = 1 then some (F.fin (6/10)) else if s = 2 then some (F.fin (4/10)) else none
  emissionProbabilities := fun s o =>
    if s = 1 then
      if o = 1 then some (F.fin (5/10)) else if o = 2 then some (F.fin (4/10))
      else if o = 3 then some (F.fin (1/10)) else none
    else if s = 2 then
      if o = 1 then some (F.fin (1/10)) else if o = 2 then some (F.fin (3/10))
      else if o = 3 then some (F.fin (6/10)) else none
    else none
  transitionProbabilities := fun f t =>
    if f = 1 then
      if t = 1 then some (F.fin (7/10)) else if t = 2 then some (F.fin (3/10)) else none
    else if f = 2 then
      if t = 1 then some (F.fin (4/10)) else if t = 2 then some (F.fin (6/10)) else none
    else none

deriving instance DecidableEq for Except

attribute [local semireducible] Rat.mul Rat.add Rat.inv Rat.sub

/-- A single-state, single-observation model (state id 1, observation id 1)
with the given start and emission probability values; used to exercise the
validation boundaries. -/
def singleModel (sp ep : F) : Viterbi Nat Nat where
  states := [1]
  observations := [1]
  startProbabilities := fun s => if s = 1 then some sp else none
  emissionProbabilities := fun s o => if s = 1 && o = 1 then some ep else none
  transitionProbabilities := fun _ _ => none

/-- Two states (ids 1, 2 in registration order), one observation, equal
start probabilities 0.5 and equal emission probabilities 0.4: both final
trellis entries tie at probability 0.2. -/
def tieModel : Viterbi Nat Nat where
  states := [1, 2]
  observations := [1]
  startProbabilities := fun s => if s = 1 || s = 2 then some (F.fin (1/2)) else none
  emissionProbabilities := fun s o => if (s = 1 || s = 2) && o = 1 then some (F.fin (2/5)) else none
  transitionProbabilities := fun _ _ => none

/-- One state, two observations, emission defined only for observation 1:
the trellis layer at time 1 comes out empty. -/
def brokenModel : Viterbi Nat Nat where
  states := [1]
  observations := [1, 2]
  startProbabilities := fun s => if s = 1 then some (F.fin 0) else none
  emissionProbabilities := fun s o => if s = 1 && o = 1 then some (F.fin 0) else none
  transitionProbabilities := fun _ _ => none

/-- Log-mode model: state 1 has start probability `-Inf` (and the better
emissions), state 2 a finite start; the transition 2 -> 2 is `-Inf`. -/
def negInfModel : Viterbi Nat Nat where
  states := [1, 2]
  observations := [1, 2]
  startProbabilities := fun s =>
    if s = 1 then some F.negInf else if s = 2 then some (F.fin (-1)) else none
  emissionProbabilities := fun s o =>
    if s = 1 && o = 1 then some (F.fin (-1))
    else if s = 2 && o = 1 then some (F.fin (-2))
    else if s = 1 && o = 2 then some (F.fin (-1))
    else if s = 2 && o = 2 then some (F.fin (-1))
    else none
  transitionProbabilities := fun f t =>
    if f = 2 && t = 1 then some (F.fin (-1))
    else if f = 2 && t = 2 then some F.negInf
    else if f = 1 then some (F.fin 0)
    else none

/-- One state with a defined but out-of-range start probability (2.0) and
no emissions: the `NoValidInitStates` hypothesis of the claim holds, yet the
start-probability validation fires first. -/
def badStartModel : Viterbi Nat Nat where
  states := [1]
  observations := [1]
  startProbabilities := fun s => if s = 1 then some (F.fin 2) else none
  emissionProbabilities := fun _ _ => none
  transitionProbabilities := fun _ _ => none

/-- One state, two observations, start probability 0 (so the time-0 product
is 0), positive emissions everywhere and a 0.7 self-transition. -/
def zeroProbModel : Viterbi Nat Nat where
  states := [1]
  observations := [1, 2]
  startProbabilities := fun s => if s = 1 then some (F.fin 0) else none
  emissionProbabilities := fun s o =>
    if s = 1 && o = 1 then some (F.fin (1/2))
    else if s = 1 && o = 2 then some (F.fin (3/10)) else none
  transitionProbabilities := fun f t => if f = 1 && t = 1 then some (F.fin (7/10)) else none

/-- Layer 0 of the weather fixture: Healthy 0.6 * 0.5 = 0.3,
Fever 0.4 * 0.1 = 0.04. -/
def weatherL0 : Layer Nat := [(1, ⟨F.fin (3/10), none⟩), (2, ⟨F.fin (1/25), none⟩)]

/-- Weather trellis layer at time 1 (observation cold): Healthy 0.084,
Fever 0.027, both from Healthy. -/
def weatherB1 : Layer Nat := [(1, ⟨F.fin (21/250), some 1⟩), (2, ⟨F.fin (27/1000), some 1⟩)]

/-- Weather trellis layer at time 2 (observation dizzy): Healthy 0.00588,
Fever 0.01512, both from Healthy. -/
def weatherB2 : Layer Nat := [(1, ⟨F.fin (147/25000), some 1⟩), (2, ⟨F.fin (189/12500), some 1⟩)]

/-- A list permuting a two-element list is one of its two arrangements. -/
lemma perm_pair_cases {α : Type u} {l : List α} {a b : α} (h : l.Perm [a, b]) :
    l = [a, b] ∨ l = [b, a] := by
  match l, h.length_eq with
  | [x, y], _ =>
    have hx : x ∈ [a, b] := h.subset (by simp)
    rcases List.mem_pair.mp hx with h1 | h1
    · subst h1
      have h2 := h.cons_inv
      rw [List.perm_singleton] at h2
      rw [h2]
      exact Or.inl rfl
    · subst h1
      have h2 := (h.trans (List.Perm.swap x a [])).cons_inv
      rw [List.perm_singleton] at h2
      rw [h2]
      exact Or.inr rfl

/-- `finishDecode` consumes the iteration order only through the reordered
final layer. -/
lemma finishDecode_reorder_eq {σ : Type u} [DecidableEq σ] (L0 : Layer σ)
    (built : List (Layer σ)) (initMax : F) (reorder : Layer σ → Layer σ) (l : Layer σ)
    (h : reorder (built.reverse.headD L0) = l) :
    finishDecode L0 built reorder initMax = finishDecode L0 built (fun _ => l) initMax := by
  simp only [finishDecode]
  rw [h]

/-- Fold invariant: a property preserved by every step holds of the fold. -/
lemma foldl_inv {α : Type u} {β : Type v} (P : β → Prop) (f : β → α → β) :
    ∀ (l : List α) (init : β), P init → (∀ b a, a ∈ l → P b → P (f b a)) →
    P (l.foldl f init) := by
  intro l
  induction l with
  | nil => intro init h _; exact h
  | cons x rest ih =>
    intro init h hstep
    exact ih (f init x) (hstep init x (by simp) h)
      (fun b a ha hb => hstep b a (by simp [ha]) hb)

/-- Looking up in a map after an assignment: the assigned key reads the new
value, every other key is unchanged. -/
lemma lookupA_insertA {α : Type v} [DecidableEq σ] (L : List (σ × α)) (k k' : σ) (v : α) :
    lookupA (insertA L k v) k' = if k = k' then some v else lookupA L k' := by
  induction L with
  | nil => simp [insertA, lookupA]
  | cons e rest ih =>
    obtain ⟨k0, v0⟩ := e
    by_cases h0 : k0 = k
    · subst h0
      by_cases h1 : k0 = k'
      · subst h1; simp [insertA, lookupA]
      · simp [insertA, lookupA, h1]
    · by_cases h1 : k0 = k'
      · subst h1
        have h2 : ¬k = k0 := fun h => h0 h.symm
        simp [insertA, lookupA, h0, h2]
      · simp [insertA, lookupA, h0, h1, ih]

/-- A key bound in the list is found by lookup. -/
lemma lookupA_isSome_of_mem {α : Type v} [DecidableEq σ] {L : List (σ × α)} {k : σ} {v : α}
    (h : (k, v) ∈ L) : (lookupA L k).isSome := by
  induction L with
  | nil => cases h
  | cons e rest ih =>
    obtain ⟨k0, v0⟩ := e
    rcases List.mem_cons.mp h with h1 | h1
    · obtain ⟨h2, _⟩ := Prod.mk.injEq .. ▸ h1
      cases h1; simp [lookupA]
    · by_cases h2 : k0 = k
      · simp [lookupA, h2]
      · simp only [lookupA, h2, if_false]
        exact ih h1


/-- C1: For the 2-state weather HMM fixture (Healthy = 1, Fever = 2;
observations normal, cold, dizzy; start 0.6/0.4; emissions
Healthy -> {0.5, 0.4, 0.1}, Fever -> {0.1, 0.3, 0.6}; transitions 0.7,
0.3, 0.4, 0.6), `EvalPath` returns no error, probability exactly 0.01512,
and the path [Healthy, Healthy, Fever] — under every admissible iteration
order of the final trellis layer. -/
theorem C1_weather_decode (reorder : Layer Nat → Layer Nat)
    (hperm : ∀ L : Layer Nat, (reorder L).Perm L) :
    EvalPathCore weather reorder = .ok ⟨F.fin (1512/100000), [1, 1, 2]⟩ := by
  have hstep : EvalPathCore weather reorder
      = finishDecode weatherL0 [weatherB1, weatherB2] reorder (F.fin 0) := rfl
  rcases perm_pair_cases (l := reorder weatherB2)
      (a := (1, ⟨F.fin (147/25000), some 1⟩)) (b := (2, ⟨F.fin (189/12500), some 1⟩))
      (hperm weatherB2) with h | h <;>
    rw [hstep, finishDecode_reorder_eq weatherL0 [weatherB1, weatherB2] (F.fin 0) reorder _ h] <;>
    decide

/-- Witness for C1 at the registration-order iteration. -/
theorem C1_weather_decode_witness :
    EvalPathCore weather id = .ok ⟨F.fin (1512/100000), [1, 1, 2]⟩ :=
  C1_weather_decode id (fun L => List.Perm.refl L)

/-- C2 (failing-input evaluation): on `tieModel` both final-layer entries
tie at probability 0.2; the registration-order iteration of the final
trellis map returns path [1] while the reversed iteration — equally
admissible for a Go map, whose range order is randomized — returns path
[2].  The probability agrees, the path does not, so the returned path is
not determined by the state registration order of the model. -/
theorem C2_tie_depends_on_map_order :
    EvalPathCore tieModel id = .ok ⟨F.fin (1/5), [1]⟩
    ∧ EvalPathCore tieModel (fun L => L.reverse) = .ok ⟨F.fin (1/5), [2]⟩
    ∧ ∀ L : Layer Nat, (L.reverse).Perm L :=
  ⟨by decide, by decide, fun L => List.reverse_perm L⟩

/-- C7: the range validation is a closed boundary check: in linear mode a
value of exactly 0 passes and any value above 1 fails; in log mode a value
of exactly 0 passes and any positive value fails; end to end, start
probability 0 decodes without error while 1.0000001 (linear) and +0.1
(log) fail with `InvalidProbability`. -/
theorem C7_boundary_check :
    (∀ q : ℚ, 1 < q → outOfRange01 (F.fin q) = true)
    ∧ outOfRange01 (F.fin 0) = false
    ∧ (∀ q : ℚ, 0 < q → outOfRangeLog (F.fin q) = true)
    ∧ outOfRangeLog (F.fin 0) = false
    ∧ (singleModel (F.fin 0) (F.fin (1/2))).EvalPath = .ok ⟨F.fin 0, [1]⟩
    ∧ (singleModel (F.fin (10000001/10000000)) (F.fin (1/2))).EvalPath
        = .error .invalidProbability
    ∧ (singleModel (F.fin 0) (F.fin 0)).EvalPathLogProbabilities = .ok ⟨F.fin 0, [1]⟩
    ∧ (singleModel (F.fin (1/10)) (F.fin 0)).EvalPathLogProbabilities
        = .error .invalidProbability := by
  refine ⟨?_, by decide, ?_, by decide, by decide, by decide, by decide, by decide⟩
  · intro q hq
    simp [outOfRange01, F.blt]
    exact Or.inr hq
  · intro q hq
    simp [outOfRangeLog, F.blt]
    exact hq

/-- Witness for C7 at the sample out-of-range values of the spec. -/
theorem C7_boundary_check_witness :
    outOfRange01 (F.fin (10000001/10000000)) = true ∧ outOfRangeLog (F.fin (1/10)) = true :=
  ⟨C7_boundary_check.1 (10000001/10000000) (by norm_num),
   C7_boundary_check.2.2.1 (1/10) (by norm_num)⟩

/-- The initial loop propagates an error accumulator unchanged. -/
lemma foldl_initStep_error [DecidableEq σ] (m : Viterbi σ ω) (o0 : ω) (e : VErr) :
    ∀ l : List σ, List.foldl (initStep m o0) (.error e) l = .error e := by
  intro l
  induction l with
  | nil => rfl
  | cons x rest ih => exact ih

/-- C10: in linear mode a probability value of exactly 0 never disqualifies
a state.  For every model, every state with a defined in-range start
probability and a defined in-range emission probability for observation 0 —
the value 0 included, so in particular a state whose start-times-emission
product is 0 — is entered in layer 0 with exactly that product and makes
the valid-initial-state counter positive.  For every model, a candidate
with any cumulative probability — 0 included — is kept as the maximum
predecessor when it is the first valid candidate (the found flag, not the
value, gates the update).  Consequently `EvalPath` can return probability 0
with a full-length path and no error, as on `zeroProbModel`. -/
theorem C10_zero_never_disqualifies :
    (∀ (α β : Type) [DecidableEq α] (m : Viterbi α β) (o0 : β) (s : α) (p e : F)
        (L : Layer α) (c : Nat),
        s ∈ m.states → m.startProbabilities s = some p → outOfRange01 p = false →
        m.emissionProbabilities s o0 = some e → outOfRange01 e = false →
        initLayer m o0 = .ok (L, c) →
        lookupA L s = some ⟨F.mul p e, none⟩ ∧ 1 ≤ c)
    ∧ (∀ (α β : Type) [DecidableEq α] (m : Viterbi α β) (prevL : Layer α) (s r : α)
        (m0 : F) (t0 : Option α) (vT : F) (sp : ViterbiVal α),
        m.transitionProbabilities r s = some vT → outOfRange01 vT = false →
        lookupA prevL r = some sp →
        transStep m prevL s (.ok (false, m0, t0)) r = .ok (true, F.mul vT sp.prob, some r))
    ∧ initLayer zeroProbModel 1 = .ok ([(1, ⟨F.fin 0, none⟩)], 1)
    ∧ zeroProbModel.EvalPath = .ok ⟨F.fin 0, [1, 1]⟩
    ∧ zeroProbModel.observations.length = 2 := by
  refine ⟨?_, ?_, by decide, by decide, rfl⟩
  · intro α β inst m o0 s p e L c hmem hsp hvp hem hve hinit
    obtain ⟨l1, l2, hsplit⟩ := List.append_of_mem hmem
    unfold initLayer at hinit
    rw [hsplit, List.foldl_append, List.foldl_cons] at hinit
    cases hacc : List.foldl (initStep m o0) (Except.ok ([], 0)) l1 with
    | error e2 =>
      rw [hacc, show initStep m o0 (Except.error e2) s = Except.error e2 from rfl,
        foldl_initStep_error] at hinit
      cases hinit
    | ok pair =>
      obtain ⟨L1, c1⟩ := pair
      rw [hacc] at hinit
      have hstep : initStep m o0 (Except.ok (L1, c1)) s
          = .ok (insertA L1 s ⟨F.mul p e, none⟩, c1 + 1) := by
        simp [initStep, hsp, hvp, hem, hve]
      rw [hstep] at hinit
      refine foldl_inv
        (fun acc => ∀ L0 c0, acc = (Except.ok (L0, c0) : Except VErr (Layer α × Nat)) →
          lookupA L0 s = some ⟨F.mul p e, none⟩ ∧ 1 ≤ c0)
        (initStep m o0) l2 _ ?_ ?_ L c hinit
      · intro L0 c0 h
        simp only [Except.ok.injEq, Prod.mk.injEq] at h
        obtain ⟨hL, hc⟩ := h
        subst hL
        subst hc
        constructor
        · rw [lookupA_insertA]
          simp
        · omega
      · intro acc st hmem2 hQ L0 c0 heq
        rcases acc with e2 | ⟨L2, c2⟩
        · simp [initStep] at heq
        · cases hsp2 : m.startProbabilities st with
          | none =>
            simp only [initStep, hsp2] at heq
            cases heq
            exact hQ _ _ rfl
          | some q =>
            simp only [initStep, hsp2] at heq
            by_cases hvq : outOfRange01 q = true
            · simp [hvq] at heq
            · simp only [Bool.not_eq_true] at hvq
              simp only [hvq, Bool.false_eq_true, if_false] at heq
              cases hem2 : m.emissionProbabilities st o0 with
              | none =>
                simp only [hem2] at heq
                cases heq
                exact hQ _ _ rfl
              | some e2 =>
                simp only [hem2] at heq
                by_cases hve2 : outOfRange01 e2 = true
                · simp [hve2] at heq
                · simp only [Bool.not_eq_true] at hve2
                  simp only [hve2, Bool.false_eq_true, if_false] at heq
                  simp only [Except.ok.injEq, Prod.mk.injEq] at heq
                  obtain ⟨hL, hc⟩ := heq
                  subst hL
                  subst hc
                  constructor
                  · rw [lookupA_insertA]
                    by_cases hss : st = s
                    · subst hss
                      rw [hsp] at hsp2
                      injection hsp2 with hq2
                      subst hq2
                      rw [hem] at hem2
                      injection hem2 with he2
                      subst he2
                      simp
                    · simp only [hss, if_false]
                      exact (hQ L2 c2 rfl).1
                  · omega
  · intro α β inst m prevL s r m0 t0 vT sp htr hv hlk
    simp [transStep, htr, hv, hlk]

/-- Witness for C10: on `zeroProbModel`, the state with start probability 0
is entered in layer 0 with product 0 and counted, and its 0-probability
candidate is kept by the predecessor scan. -/
theorem C10_zero_never_disqualifies_witness :
    (lookupA [(1, (⟨F.fin 0, none⟩ : ViterbiVal Nat))] 1
        = some ⟨F.mul (F.fin 0) (F.fin (1/2)), none⟩ ∧ 1 ≤ 1)
    ∧ transStep zeroProbModel [(1, ⟨F.fin 0, none⟩)] 1 (.ok (false, F.fin 0, none)) 1
        = .ok (true, F.mul (F.fin (7/10)) (F.fin 0), some 1) :=
  ⟨C10_zero_never_disqualifies.1 Nat Nat zeroProbModel 1 1 (F.fin 0) (F.fin (1/2))
      [(1, ⟨F.fin 0, none⟩)] 1 (by decide) rfl (by decide) (by decide) (by decide) (by decide),
   C10_zero_never_disqualifies.2.1 Nat Nat zeroProbModel [(1, ⟨F.fin 0, none⟩)] 1 1
      (F.fin 0) none (F.fin (7/10)) ⟨F.fin 0, none⟩ (by decide) (by decide) (by decide)⟩

/-- A model with one state and no observations. -/
def emptyObsModel : Viterbi Nat Nat where
  states := [1]
  observations := []
  startProbabilities := fun _ => none
  emissionProbabilities := fun _ _ => none
  transitionProbabilities := fun _ _ => none

/-- A model with one observation and no states. -/
def noStatesModel : Viterbi Nat Nat where
  states := []
  observations := [1]
  startProbabilities := fun _ => none
  emissionProbabilities := fun _ _ => none
  transitionProbabilities := fun _ _ => none

/-- A model whose single state has a valid start probability but no
emission for observation 0. -/
def noEmisModel : Viterbi Nat Nat where
  states := [1]
  observations := [1]
  startProbabilities := fun s => if s = 1 then some (F.fin 0) else none
  emissionProbabilities := fun _ _ => none
  transitionProbabilities := fun _ _ => none

/-- C9: with an empty observation sequence both decode variants fail with
`NoObservations` whatever the state set; with observations present and an
empty state set both fail with `NoStates` — under any final-layer
iteration order. -/
theorem C9_empty_model_errors [DecidableEq σ] (m : Viterbi σ ω)
    (reorder : Layer σ → Layer σ) :
    (m.observations = [] →
      EvalPathCore m reorder = .error .noObservations
      ∧ EvalPathLogCore m reorder = .error .noObservations)
    ∧ (m.observations ≠ [] → m.states = [] →
      EvalPathCore m reorder = .error .noStates
      ∧ EvalPathLogCore m reorder = .error .noStates) := by
  constructor
  · intro h
    constructor <;> simp [EvalPathCore, EvalPathLogCore, h]
  · intro h1 h2
    rcases hobs : m.observations with _ | ⟨o, rest⟩
    · exact absurd hobs h1
    · constructor <;> simp [EvalPathCore, EvalPathLogCore, hobs, h2]

/-- Witness for C9 on one-state-no-observation and one-observation-no-state
models. -/
theorem C9_empty_model_errors_witness :
    (EvalPathCore emptyObsModel id = .error .noObservations
      ∧ EvalPathLogCore emptyObsModel id = .error .noObservations)
    ∧ (EvalPathCore noStatesModel id = .error .noStates
      ∧ EvalPathLogCore noStatesModel id = .error .noStates) :=
  ⟨(C9_empty_model_errors emptyObsModel id).1 rfl,
   (C9_empty_model_errors noStatesModel id).2 (by decide) rfl⟩

/-- C4: as soon as the layer built for time step `t` comes out empty, both
decode variants fail with `PathBroken` carrying `t`; the remaining
observations (`rest`) are never decoded. -/
theorem C4_empty_layer_breaks [DecidableEq σ] (m : Viterbi σ ω) (prevLayer : Layer σ)
    (t : Nat) (o : ω) (rest : List ω) :
    (stepLayer m prevLayer o = .ok [] →
      buildLayers m prevLayer t (o :: rest) = .error (.pathBroken t))
    ∧ (stepLayerLog m prevLayer o = .ok [] →
      buildLayersLog m prevLayer t (o :: rest) = .error (.pathBroken t)) := by
  constructor <;> intro h <;> simp [buildLayers, buildLayersLog, h]

/-- Witness for C4 on the one-state model whose emission for the second
observation is missing. -/
theorem C4_empty_layer_breaks_witness :
    buildLayers brokenModel [(1, ⟨F.fin 0, none⟩)] 1 [2] = .error (.pathBroken 1)
    ∧ buildLayersLog brokenModel [(1, ⟨F.fin 0, none⟩)] 1 [2] = .error (.pathBroken 1) :=
  ⟨(C4_empty_layer_breaks brokenModel [(1, ⟨F.fin 0, none⟩)] 1 2 []).1 (by decide),
   (C4_empty_layer_breaks brokenModel [(1, ⟨F.fin 0, none⟩)] 1 2 []).2 (by decide)⟩

/-- C6 fails as stated: on `badStartModel` no state has both a start and an
emission probability for observation 0, yet both decode variants fail with
`InvalidProbability` (the start value 2.0 is validated before the emission
lookup), not with `NoValidInitStates`. -/
theorem C6_counterexample :
    badStartModel.states = [1]
    ∧ badStartModel.observations = [1]
    ∧ badStartModel.startProbabilities 1 = some (F.fin 2)
    ∧ badStartModel.emissionProbabilities 1 1 = none
    ∧ badStartModel.EvalPath = .error .invalidProbability
    ∧ badStartModel.EvalPath ≠ .error .noValidInitStates
    ∧ badStartModel.EvalPathLogProbabilities = .error .invalidProbability
    ∧ badStartModel.EvalPathLogProbabilities ≠ .error .noValidInitStates := by
  decide

/-- C6 amended: for a model with at least one state and one observation in
which no state has both a defined start probability and a defined emission
probability for observation 0, and in which every defined start probability
is within the valid range of the active mode, the decode fails with
`NoValidInitStates`. -/
theorem C6_no_valid_init_states [DecidableEq σ] (m : Viterbi σ ω) (o0 : ω) (rest : List ω)
    (hobs : m.observations = o0 :: rest) (hst : m.states ≠ [])
    (hnone : ∀ s ∈ m.states, m.startProbabilities s ≠ none →
      m.emissionProbabilities s o0 = none) :
    ((∀ s ∈ m.states, ∀ p, m.startProbabilities s = some p → outOfRange01 p = false) →
      m.EvalPath = .error .noValidInitStates)
    ∧ ((∀ s ∈ m.states, ∀ p, m.startProbabilities s = some p → outOfRangeLog p = false) →
      m.EvalPathLogProbabilities = .error .noValidInitStates) := by
  have hse : m.states.isEmpty = false := by
    rcases hms : m.states with _ | ⟨a, l⟩
    · exact absurd hms hst
    · rfl
  constructor
  · intro hvalid
    have hinit : initLayer m o0 = .ok ([], 0) := by
      unfold initLayer
      refine foldl_inv
        (fun acc => acc = (Except.ok ([], 0) : Except VErr (Layer σ × Nat))) _ _ _ rfl ?_
      intro acc st hmem hacc
      subst hacc
      cases hsp : m.startProbabilities st with
      | none => simp [initStep, hsp]
      | some p =>
        have hv : outOfRange01 p = false := hvalid st hmem p hsp
        have he : m.emissionProbabilities st o0 = none := hnone st hmem (by simp [hsp])
        simp [initStep, hsp, hv, he]
    show EvalPathCore m id = _
    simp [EvalPathCore, hobs, hse, hinit]
  · intro hvalid
    have hinit : initLayerLog m o0 = .ok ([], 0) := by
      unfold initLayerLog
      refine foldl_inv
        (fun acc => acc = (Except.ok ([], 0) : Except VErr (Layer σ × Nat))) _ _ _ rfl ?_
      intro acc st hmem hacc
      subst hacc
      cases hsp : m.startProbabilities st with
      | none => simp [initStepLog, hsp]
      | some p =>
        have hv : outOfRangeLog p = false := hvalid st hmem p hsp
        have he : m.emissionProbabilities st o0 = none := hnone st hmem (by simp [hsp])
        simp [initStepLog, hsp, hv, he]
    show EvalPathLogCore m id = _
    simp [EvalPathLogCore, hobs, hse, hinit]

/-- Witness for C6 amended: one state with start probability 0 and no
emissions. -/
theorem C6_no_valid_init_states_witness :
    noEmisModel.EvalPath = .error .noValidInitStates
    ∧ noEmisModel.EvalPathLogProbabilities = .error .noValidInitStates :=
  ⟨(C6_no_valid_init_states noEmisModel 1 [] rfl (by decide) (by decide)).1 (by decide),
   (C6_no_valid_init_states noEmisModel 1 [] rfl (by decide) (by decide)).2 (by decide)⟩

/-- C5: in log mode a value of negative infinity is never reported as
`InvalidProbability` (the range check accepts it); a state whose start
probability is negative infinity is skipped in layer 0 — so it can never be
selected as an initial state over a finite-score alternative — and on
`negInfModel` (a `-Inf` start on the state with the better emissions and a
`-Inf` transition elsewhere) the decode returns the finite-score
alternative without error. -/
theorem C5_negInf_skipped :
    outOfRangeLog F.negInf = false
    ∧ (∀ (α β : Type) [DecidableEq α] (m : Viterbi α β) (s : α) (o0 : β)
        (L : Layer α) (c : Nat),
        m.startProbabilities s = some F.negInf → initLayerLog m o0 = .ok (L, c) →
        lookupA L s = none)
    ∧ negInfModel.EvalPathLogProbabilities = .ok ⟨F.fin (-5), [2, 1]⟩ := by
  refine ⟨rfl, ?_, by decide⟩
  intro α β inst m s o0 L c hstart hinit
  unfold initLayerLog at hinit
  refine foldl_inv
    (fun acc => ∀ L0 c0, acc = (Except.ok (L0, c0) : Except VErr (Layer α × Nat)) →
      lookupA L0 s = none)
    (initStepLog m o0) m.states (Except.ok ([], 0)) ?_ ?_ L c hinit
  · intro L0 c0 h
    cases h
    rfl
  · intro acc st hmem hP L0 c0 heq
    rcases acc with e | ⟨L1, c1⟩
    · simp [initStepLog] at heq
    · cases hsp : m.startProbabilities st with
      | none =>
        simp only [initStepLog, hsp] at heq
        cases heq
        exact hP L0 c0 rfl
      | some p =>
        simp only [initStepLog, hsp] at heq
        by_cases hv : outOfRangeLog p = true
        · simp [hv] at heq
        · simp only [Bool.not_eq_true] at hv
          simp only [hv, Bool.false_eq_true, if_false] at heq
          cases hem : m.emissionProbabilities st o0 with
          | none =>
            simp only [hem] at heq
            cases heq
            exact hP L0 c0 rfl
          | some ep =>
            simp only [hem] at heq
            by_cases hev : outOfRangeLog ep = true
            · simp [hev] at heq
            · simp only [Bool.not_eq_true] at hev
              simp only [hev, Bool.false_eq_true, if_false] at heq
              by_cases hni : (p.isNegInf || ep.isNegInf) = true
              · simp only [hni, if_true] at heq
                cases heq
                exact hP L0 c0 rfl
              · simp only [Bool.not_eq_true] at hni
                simp only [hni, Bool.false_eq_true, if_false] at heq
                simp only [Except.ok.injEq, Prod.mk.injEq] at heq
                obtain ⟨hL, hc⟩ := heq
                subst hL
                rw [lookupA_insertA]
                by_cases hss : st = s
                · subst hss
                  rw [hstart] at hsp
                  injection hsp with hp
                  subst hp
                  simp [F.isNegInf] at hni
                · simp only [hss, if_false]
                  exact hP L1 c1 rfl

/-- Witness for C5: on `negInfModel`, layer 0 does not contain state 1
(whose start probability is `-Inf`). -/
theorem C5_negInf_skipped_witness :
    lookupA [(2, (⟨F.fin (-3), none⟩ : ViterbiVal Nat))] 1 = none :=
  C5_negInf_skipped.2.1 Nat Nat negInfModel 1 1 [(2, ⟨F.fin (-3), none⟩)] 1 rfl (by decide)

/-- Every recorded predecessor in `L` is a key of the previous layer. -/
def linked [DecidableEq σ] (L prevL : Layer σ) : Prop :=
  ∀ s v, lookupA L s = some v → ∃ p w, v.prev = some p ∧ lookupA prevL p = some w

/-- The built layers, listed last-first, are pairwise linked, the earliest
of them linked to layer 0. -/
def revLinked [DecidableEq σ] : List (Layer σ) → Layer σ → Prop
  | [], _ => True
  | l :: rest, L0 => linked l (rest.headD L0) ∧ revLinked rest L0

lemma headD_append_singleton {α : Type u} (xs : List α) (x d : α) :
    (xs ++ [x]).headD d = xs.headD x := by
  cases xs <;> rfl

lemma revLinked_append [DecidableEq σ] (xs : List (Layer σ)) (L prevL : Layer σ)
    (h1 : revLinked xs L) (h2 : linked L prevL) : revLinked (xs ++ [L]) prevL := by
  induction xs with
  | nil => exact ⟨h2, trivial⟩
  | cons x xs ih =>
    obtain ⟨hx, hxs⟩ := h1
    refine ⟨?_, ih hxs⟩
    show linked x ((xs ++ [L]).headD prevL)
    rw [headD_append_singleton]
    exact hx

/-- If the layer list is chain-linked and the starting state is a key of
the first layer, backtracking succeeds. -/
lemma backtrack_ok [DecidableEq σ] :
    ∀ (revB : List (Layer σ)) (L0 : Layer σ) (prev : σ) (acc : List σ),
      revLinked revB L0 → (lookupA (revB.headD L0) prev).isSome →
      ∃ opt, backtrack revB prev acc = .ok opt := by
  intro revB
  induction revB with
  | nil => exact fun L0 prev acc _ _ => ⟨acc, rfl⟩
  | cons l rest ih =>
    intro L0 prev acc hrl hsome
    obtain ⟨hl1, hl2⟩ := hrl
    cases hl : lookupA l prev with
    | none => rw [List.headD_cons, hl] at hsome; cases hsome
    | some val =>
      obtain ⟨p, w, hprev, hlook⟩ := hl1 prev val hl
      obtain ⟨opt, hopt⟩ := ih L0 p (p :: acc) hl2 (by rw [hlook]; rfl)
      refine ⟨opt, ?_⟩
      simp only [backtrack, hl, hprev]
      exact hopt

/-- The terminus scan only returns keys of the scanned layer. -/
lemma pickTerminus_mem (L : Layer σ) (maxPr : F) (t : σ) :
    pickTerminus L maxPr = some t → ∃ v, (t, v) ∈ L := by
  unfold pickTerminus
  intro h
  cases hf : L.find? fun e => decide (e.2.prob = maxPr) with
  | none => rw [hf] at h; cases h
  | some e =>
    rw [hf] at h
    injection h with h1
    exact ⟨e.2, by rw [← h1]; exact List.mem_of_find?_eq_some hf⟩

/-- The result of `finishDecode` is never the internal backtracking
error. -/
def isInternalErr {α : Type v} : Except VErr α → Bool
  | .error (.internalBacktrack _) => true
  | _ => false

lemma finishDecode_no_internal [DecidableEq σ] (L0 : Layer σ) (built : List (Layer σ))
    (reorder : Layer σ → Layer σ) (initMax : F)
    (hperm : ∀ L : Layer σ, (reorder L).Perm L)
    (hchain : revLinked built.reverse L0) :
    isInternalErr (finishDecode L0 built reorder initMax) = false := by
  simp only [finishDecode]
  cases hemp : (built.reverse.headD L0).isEmpty with
  | true => simp [hemp, isInternalErr]
  | false =>
    simp only [hemp, Bool.false_eq_true, if_false]
    cases hpt : pickTerminus (reorder (built.reverse.headD L0))
        (maxFinal (reorder (built.reverse.headD L0)) initMax) with
    | none => simp [isInternalErr]
    | some terminus =>
      obtain ⟨v, hv⟩ := pickTerminus_mem _ _ _ hpt
      have hmem : (terminus, v) ∈ built.reverse.headD L0 :=
        (hperm (built.reverse.headD L0)).subset hv
      obtain ⟨opt, hopt⟩ := backtrack_ok built.reverse L0 terminus [terminus] hchain
        (lookupA_isSome_of_mem hmem)
      simp [hopt, isInternalErr]

/-- When the linear predecessor scan reports success, its winner is a key
of the previous layer. -/
lemma bestPrev_found [DecidableEq σ] (m : Viterbi σ ω) (prevL : Layer σ) (s : σ) :
    ∀ mp tmp, bestPrev m prevL s = .ok (true, mp, tmp) →
      ∃ r w, tmp = some r ∧ lookupA prevL r = some w := by
  unfold bestPrev
  refine foldl_inv
    (fun acc => ∀ mp tmp,
      acc = (Except.ok (true, mp, tmp) : Except VErr (Bool × F × Option σ)) →
      ∃ r w, tmp = some r ∧ lookupA prevL r = some w)
    (transStep m prevL s) m.states (Except.ok (false, F.fin 0, none)) ?_ ?_
  · intro mp tmp h
    simp at h
  · intro acc r hmem hP mp tmp heq
    rcases acc with e | ⟨f0, m0, t0⟩
    · simp [transStep] at heq
    · cases htr : m.transitionProbabilities r s with
      | none =>
        simp only [transStep, htr] at heq
        exact hP mp tmp heq
      | some vT =>
        simp only [transStep, htr] at heq
        by_cases hv : outOfRange01 vT = true
        · simp [hv] at heq
        · simp only [Bool.not_eq_true] at hv
          simp only [hv, Bool.false_eq_true, if_false] at heq
          cases hlk : lookupA prevL r with
          | none =>
            rw [hlk] at heq
            exact hP mp tmp heq
          | some stateProb =>
            rw [hlk] at heq
            by_cases hc : (!f0 || F.blt m0 (F.mul vT stateProb.prob)) = true
            · simp only [hc, if_true] at heq
              simp only [Except.ok.injEq, Prod.mk.injEq] at heq
              obtain ⟨-, -, htmp⟩ := heq
              exact ⟨r, stateProb, htmp.symm, hlk⟩
            · simp only [Bool.not_eq_true] at hc
              simp only [hc, Bool.false_eq_true, if_false] at heq
              exact hP mp tmp heq

/-- When the log predecessor scan reports success, its winner is a key of
the previous layer. -/
lemma bestPrevLog_found [DecidableEq σ] (m : Viterbi σ ω) (prevL : Layer σ) (s : σ) :
    ∀ mp tmp, bestPrevLog m prevL s = .ok (true, mp, tmp) →
      ∃ r w, tmp = some r ∧ lookupA prevL r = some w := by
  unfold bestPrevLog
  refine foldl_inv
    (fun acc => ∀ mp tmp,
      acc = (Except.ok (true, mp, tmp) : Except VErr (Bool × F × Option σ)) →
      ∃ r w, tmp = some r ∧ lookupA prevL r = some w)
    (transStepLog m prevL s) m.states (Except.ok (false, F.negInf, none)) ?_ ?_
  · intro mp tmp h
    simp at h
  · intro acc r hmem hP mp tmp heq
    rcases acc with e | ⟨f0, m0, t0⟩
    · simp [transStepLog] at heq
    · cases htr : m.transitionProbabilities r s with
      | none =>
        simp only [transStepLog, htr] at heq
        exact hP mp tmp heq
      | some vT =>
        simp only [transStepLog, htr] at heq
        by_cases hv : outOfRangeLog vT = true
        · simp [hv] at heq
        · simp only [Bool.not_eq_true] at hv
          simp only [hv, Bool.false_eq_true, if_false] at heq
          cases hlk : lookupA prevL r with
          | none =>
            rw [hlk] at heq
            exact hP mp tmp heq
          | some stateProb =>
            rw [hlk] at heq
            by_cases hni : (vT.isNegInf || stateProb.prob.isNegInf) = true
            · simp only [hni, if_true] at heq
              exact hP mp tmp heq
            · simp only [Bool.not_eq_true] at hni
              simp only [hni, Bool.false_eq_true, if_false] at heq
              by_cases hc : (!f0 || F.blt m0 (F.add vT stateProb.prob)) = true
              · simp only [hc, if_true] at heq
                simp only [Except.ok.injEq, Prod.mk.injEq] at heq
                obtain ⟨-, -, htmp⟩ := heq
                exact ⟨r, stateProb, htmp.symm, hlk⟩
              · simp only [Bool.not_eq_true] at hc
                simp only [hc, Bool.false_eq_true, if_false] at heq
                exact hP mp tmp heq

/-- Every layer the linear per-step loop builds is linked to the previous
layer. -/
lemma stepLayer_linked [DecidableEq σ] (m : Viterbi σ ω) (prevL : Layer σ) (o : ω) :
    ∀ L, stepLayer m prevL o = .ok L → linked L prevL := by
  unfold stepLayer
  refine foldl_inv
    (fun acc => ∀ L, acc = (Except.ok L : Except VErr (Layer σ)) → linked L prevL)
    (stepState m prevL o) m.states (Except.ok []) ?_ ?_
  · intro L h
    cases h
    intro s v hl
    simp [lookupA] at hl
  · intro acc s hmem hP L heq
    rcases acc with e | L1
    · simp [stepState] at heq
    · cases hem : m.emissionProbabilities s o with
      | none =>
        simp only [stepState, hem] at heq
        exact hP L heq
      | some ep =>
        simp only [stepState, hem] at heq
        by_cases hv : outOfRange01 ep = true
        · simp [hv] at heq
        · simp only [Bool.not_eq_true] at hv
          simp only [hv, Bool.false_eq_true, if_false] at heq
          cases hbp : bestPrev m prevL s with
          | error e2 =>
            rw [hbp] at heq
            simp at heq
          | ok trip =>
            obtain ⟨found, maxTP, tmp⟩ := trip
            rw [hbp] at heq
            cases found with
            | false =>
              simp only [Bool.false_eq_true, if_false] at heq
              exact hP L heq
            | true =>
              simp only [if_true] at heq
              injection heq with h1
              subst h1
              intro s2 v hl
              rw [lookupA_insertA] at hl
              by_cases hss : s = s2
              · simp only [hss, if_true] at hl
                injection hl with h2
                obtain ⟨r, w, htmp, hlk⟩ := bestPrev_found m prevL s maxTP tmp hbp
                exact ⟨r, w, by rw [← h2]; exact htmp, hlk⟩
              · simp only [hss, if_false] at hl
                exact hP L1 rfl s2 v hl

/-- Every layer the log per-step loop builds is linked to the previous
layer. -/
lemma stepLayerLog_linked [DecidableEq σ] (m : Viterbi σ ω) (prevL : Layer σ) (o : ω) :
    ∀ L, stepLayerLog m prevL o = .ok L → linked L prevL := by
  unfold stepLayerLog
  refine foldl_inv
    (fun acc => ∀ L, acc = (Except.ok L : Except VErr (Layer σ)) → linked L prevL)
    (stepStateLog m prevL o) m.states (Except.ok []) ?_ ?_
  · intro L h
    cases h
    intro s v hl
    simp [lookupA] at hl
  · intro acc s hmem hP L heq
    rcases acc with e | L1
    · simp [stepStateLog] at heq
    · cases hem : m.emissionProbabilities s o with
      | none =>
        simp only [stepStateLog, hem] at heq
        exact hP L heq
      | some ep =>
        simp only [stepStateLog, hem] at heq
        by_cases hv : outOfRangeLog ep = true
        · simp [hv] at heq
        · simp only [Bool.not_eq_true] at hv
          simp only [hv, Bool.false_eq_true, if_false] at heq
          by_cases hni : ep.isNegInf = true
          · simp only [hni, if_true] at heq
            exact hP L heq
          · simp only [Bool.not_eq_true] at hni
            simp only [hni, Bool.false_eq_true, if_false] at heq
            cases hbp : bestPrevLog m prevL s with
            | error e2 =>
              rw [hbp] at heq
              simp at heq
            | ok trip =>
              obtain ⟨found, maxTP, tmp⟩ := trip
              rw [hbp] at heq
              cases found with
              | false =>
                simp only [Bool.false_eq_true, if_false] at heq
                exact hP L heq
              | true =>
                simp only [if_true] at heq
                injection heq with h1
                subst h1
                intro s2 v hl
                rw [lookupA_insertA] at hl
                by_cases hss : s = s2
                · simp only [hss, if_true] at hl
                  injection hl with h2
                  obtain ⟨r, w, htmp, hlk⟩ := bestPrevLog_found m prevL s maxTP tmp hbp
                  exact ⟨r, w, by rw [← h2]; exact htmp, hlk⟩
                · simp only [hss, if_false] at hl
                  exact hP L1 rfl s2 v hl

/-- The linear time loop produces a chain-linked trellis. -/
lemma buildLayers_revLinked [DecidableEq σ] (m : Viterbi σ ω) :
    ∀ (obs : List ω) (prevL : Layer σ) (t : Nat) (built : List (Layer σ)),
      buildLayers m prevL t obs = .ok built → revLinked built.reverse prevL := by
  intro obs
  induction obs with
  | nil =>
    intro prevL t built h
    injection h with h1
    subst h1
    trivial
  | cons o rest ih =>
    intro prevL t built h
    simp only [buildLayers] at h
    cases hsl : stepLayer m prevL o with
    | error e =>
      rw [hsl] at h
      cases h
    | ok L =>
      rw [hsl] at h
      by_cases hemp : L.isEmpty = true
      · simp [hemp] at h
      · simp only [Bool.not_eq_true] at hemp
        simp only [hemp, Bool.false_eq_true, if_false] at h
        cases hbl : buildLayers m L (t + 1) rest with
        | error e =>
          rw [hbl] at h
          cases h
        | ok Ls =>
          rw [hbl] at h
          injection h with h1
          subst h1
          show revLinked ((L :: Ls).reverse) prevL
          rw [List.reverse_cons]
          exact revLinked_append Ls.reverse L prevL (ih L (t + 1) Ls hbl)
            (stepLayer_linked m prevL o L hsl)

/-- The log time loop produces a chain-linked trellis. -/
lemma buildLayersLog_revLinked [DecidableEq σ] (m : Viterbi σ ω) :
    ∀ (obs : List ω) (prevL : Layer σ) (t : Nat) (built : List (Layer σ)),
      buildLayersLog m prevL t obs = .ok built → revLinked built.reverse prevL := by
  intro obs
  induction obs with
  | nil =>
    intro prevL t built h
    injection h with h1
    subst h1
    trivial
  | cons o rest ih =>
    intro prevL t built h
    simp only [buildLayersLog] at h
    cases hsl : stepLayerLog m prevL o with
    | error e =>
      rw [hsl] at h
      cases h
    | ok L =>
      rw [hsl] at h
      by_cases hemp : L.isEmpty = true
      · simp [hemp] at h
      · simp only [Bool.not_eq_true] at hemp
        simp only [hemp, Bool.false_eq_true, if_false] at h
        cases hbl : buildLayersLog m L (t + 1) rest with
        | error e =>
          rw [hbl] at h
          cases h
        | ok Ls =>
          rw [hbl] at h
          injection h with h1
          subst h1
          show revLinked ((L :: Ls).reverse) prevL
          rw [List.reverse_cons]
          exact revLinked_append Ls.reverse L prevL (ih L (t + 1) Ls hbl)
            (stepLayerLog_linked m prevL o L hsl)

/-- C8: whenever the forward pass completes (the time loop returns its
layers) and whatever terminal state the final-layer scan selects — under
any admissible map iteration order — backtracking succeeds at every time
step: the internal backtracking-failed error branch of `finishDecode` is
unreachable, in both decode variants. -/
theorem C8_backtrack_unreachable [DecidableEq σ] (m : Viterbi σ ω)
    (reorder : Layer σ → Layer σ) (hperm : ∀ L : Layer σ, (reorder L).Perm L)
    (L0 : Layer σ) (t : Nat) (obs : List ω) (built : List (Layer σ)) :
    (buildLayers m L0 t obs = .ok built →
      isInternalErr (finishDecode L0 built reorder (F.fin 0)) = false)
    ∧ (buildLayersLog m L0 t obs = .ok built →
      isInternalErr (finishDecode L0 built reorder F.negInf) = false) :=
  ⟨fun h => finishDecode_no_internal L0 built reorder (F.fin 0) hperm
      (buildLayers_revLinked m obs L0 t built h),
   fun h => finishDecode_no_internal L0 built reorder F.negInf hperm
      (buildLayersLog_revLinked m obs L0 t built h)⟩

/-- Witness for C8 on the weather fixture (linear) and the `-Inf` fixture
(log). -/
theorem C8_backtrack_unreachable_witness :
    isInternalErr (finishDecode weatherL0 [weatherB1, weatherB2] id (F.fin 0)) = false
    ∧ isInternalErr
        (finishDecode [(2, ⟨F.fin (-3), none⟩)] [[(1, ⟨F.fin (-5), some 2⟩)]] id F.negInf)
      = false :=
  ⟨(C8_backtrack_unreachable weather id (fun L => List.Perm.refl L) weatherL0 1 [2, 3]
      [weatherB1, weatherB2]).1 (by decide),
   (C8_backtrack_unreachable negInfModel id (fun L => List.Perm.refl L)
      [(2, ⟨F.fin (-3), none⟩)] 1 [2] [[(1, ⟨F.fin (-5), some 2⟩)]]).2 (by decide)⟩

/-- Backtracking prepends exactly one state per layer walked. -/
lemma backtrack_length [DecidableEq σ] :
    ∀ (revB : List (Layer σ)) (prev : σ) (acc opt : List σ),
      backtrack revB prev acc = .ok opt → opt.length = revB.length + acc.length := by
  intro revB
  induction revB with
  | nil =>
    intro prev acc opt h
    injection h with h1
    subst h1
    simp
  | cons layer rest ih =>
    intro prev acc opt h
    cases hl : lookupA layer prev with
    | none => simp [backtrack, hl] at h
    | some val =>
      cases hv : val.prev with
      | none => simp [backtrack, hl, hv] at h
      | some p =>
        simp only [backtrack, hl, hv] at h
        have h2 := ih p (p :: acc) opt h
        simp only [List.length_cons] at h2 ⊢
        omega

/-- The linear time loop returns one layer per observation. -/
lemma buildLayers_length [DecidableEq σ] (m : Viterbi σ ω) :
    ∀ (obs : List ω) (prevL : Layer σ) (t : Nat) (built : List (Layer σ)),
      buildLayers m prevL t obs = .ok built → built.length = obs.length := by
  intro obs
  induction obs with
  | nil =>
    intro prevL t built h
    injection h with h1
    subst h1
    rfl
  | cons o rest ih =>
    intro prevL t built h
    simp only [buildLayers] at h
    cases hsl : stepLayer m prevL o with
    | error e => rw [hsl] at h; cases h
    | ok L =>
      rw [hsl] at h
      by_cases hemp : L.isEmpty = true
      · simp [hemp] at h
      · simp only [Bool.not_eq_true] at hemp
        simp only [hemp, Bool.false_eq_true, if_false] at h
        cases hbl : buildLayers m L (t + 1) rest with
        | error e => rw [hbl] at h; cases h
        | ok Ls =>
          rw [hbl] at h
          injection h with h1
          subst h1
          simp [ih L (t + 1) Ls hbl]

/-- The log time loop returns one layer per observation. -/
lemma buildLayersLog_length [DecidableEq σ] (m : Viterbi σ ω) :
    ∀ (obs : List ω) (prevL : Layer σ) (t : Nat) (built : List (Layer σ)),
      buildLayersLog m prevL t obs = .ok built → built.length = obs.length := by
  intro obs
  induction obs with
  | nil =>
    intro prevL t built h
    injection h with h1
    subst h1
    rfl
  | cons o rest ih =>
    intro prevL t built h
    simp only [buildLayersLog] at h
    cases hsl : stepLayerLog m prevL o with
    | error e => rw [hsl] at h; cases h
    | ok L =>
      rw [hsl] at h
      by_cases hemp : L.isEmpty = true
      · simp [hemp] at h
      · simp only [Bool.not_eq_true] at hemp
        simp only [hemp, Bool.false_eq_true, if_false] at h
        cases hbl : buildLayersLog m L (t + 1) rest with
        | error e => rw [hbl] at h; cases h
        | ok Ls =>
          rw [hbl] at h
          injection h with h1
          subst h1
          simp [ih L (t + 1) Ls hbl]

/-- A successful `finishDecode` returns one more state than there are
built layers. -/
lemma finishDecode_length [DecidableEq σ] (L0 : Layer σ) (built : List (Layer σ))
    (reorder : Layer σ → Layer σ) (initMax : F) (vp : ViterbiPath σ) :
    finishDecode L0 built reorder initMax = .ok vp → vp.Path.length = built.length + 1 := by
  intro h
  simp only [finishDecode] at h
  cases hemp : (built.reverse.headD L0).isEmpty with
  | true => rw [if_pos hemp] at h; cases h
  | false =>
    rw [if_neg (by rw [hemp]; exact Bool.false_ne_true)] at h
    cases hpt : pickTerminus (reorder (built.reverse.headD L0))
        (maxFinal (reorder (built.reverse.headD L0)) initMax) with
    | none => simp only [hpt] at h; cases h
    | some terminus =>
      simp only [hpt] at h
      cases hbt : backtrack built.reverse terminus [terminus] with
      | error e => simp only [hbt] at h; cases h
      | ok opt =>
        simp only [hbt] at h
        injection h with h1
        subst h1
        have h2 := backtrack_length built.reverse terminus [terminus] opt hbt
        simp only [List.length_reverse, List.length_cons, List.length_nil] at h2
        simpa using h2

/-- C3: whenever either decode variant returns without error — under any
final-layer iteration order — the returned path has exactly one state per
observation. -/
theorem C3_path_length [DecidableEq σ] (m : Viterbi σ ω) (reorder : Layer σ → Layer σ)
    (vp : ViterbiPath σ) :
    (EvalPathCore m reorder = .ok vp → vp.Path.length = m.observations.length)
    ∧ (EvalPathLogCore m reorder = .ok vp → vp.Path.length = m.observations.length) := by
  constructor
  · intro h
    simp only [EvalPathCore] at h
    cases hobs : m.observations with
    | nil => rw [hobs] at h; cases h
    | cons o0 rest =>
      rw [hobs] at h
      by_cases hse : m.states.isEmpty = true
      · simp [hse] at h
      · simp only [Bool.not_eq_true] at hse
        simp only [hse, Bool.false_eq_true, if_false] at h
        cases hinit : initLayer m o0 with
        | error e => rw [hinit] at h; cases h
        | ok pair =>
          obtain ⟨L0, cnt⟩ := pair
          simp only [hinit] at h
          by_cases hcnt : cnt = 0
          · rw [if_pos hcnt] at h; cases h
          · rw [if_neg hcnt] at h
            cases hbuild : buildLayers m L0 1 rest with
            | error e => simp only [hbuild] at h; cases h
            | ok built =>
              simp only [hbuild] at h
              have h2 := finishDecode_length L0 built reorder (F.fin 0) vp h
              rw [h2, buildLayers_length m rest L0 1 built hbuild]
              rfl
  · intro h
    simp only [EvalPathLogCore] at h
    cases hobs : m.observations with
    | nil => rw [hobs] at h; cases h
    | cons o0 rest =>
      rw [hobs] at h
      by_cases hse : m.states.isEmpty = true
      · simp [hse] at h
      · simp only [Bool.not_eq_true] at hse
        simp only [hse, Bool.false_eq_true, if_false] at h
        cases hinit : initLayerLog m o0 with
        | error e => rw [hinit] at h; cases h
        | ok pair =>
          obtain ⟨L0, cnt⟩ := pair
          simp only [hinit] at h
          by_cases hcnt : cnt = 0
          · rw [if_pos hcnt] at h; cases h
          · rw [if_neg hcnt] at h
            cases hbuild : buildLayersLog m L0 1 rest with
            | error e => simp only [hbuild] at h; cases h
            | ok built =>
              simp only [hbuild] at h
              have h2 := finishDecode_length L0 built reorder F.negInf vp h
              rw [h2, buildLayersLog_length m rest L0 1 built hbuild]
              rfl

/-- Witness for C3 on the weather fixture (linear) and the `-Inf` fixture
(log). -/
theorem C3_path_length_witness :
    (⟨F.fin (1512/100000), [1, 1, 2]⟩ : ViterbiPath Nat).Path.length
        = weather.observations.length
    ∧ (⟨F.fin (-5), [2, 1]⟩ : ViterbiPath Nat).Path.length
        = negInfModel.observations.length :=
  ⟨(C3_path_length weather id ⟨F.fin (1512/100000), [1, 1, 2]⟩).1 (by decide),
   (C3_path_length negInfModel id ⟨F.fin (-5), [2, 1]⟩).2 (by decide)⟩
